import Mathlib

/-!
Shallow embedding of the reusable core of an Advent-of-Code 2021 repository:
the generic 2-D grid (helpers), the lanternfish bucketed population counter
(day6), the polymer pair-frequency propagator and its naive string-rewrite
cross-check (day14), and the octopus flash-propagation step (day11).

Rust HashMap values are embedded as association lists of key/count entries;
lookups compare keys with decidable equality.  Rust panics (unwrap, index
out of range, remainder by zero) are embedded as explicit failure
constructors or as the none branch of an Option-returning function.
-/

namespace Aoc21

/-! ### Association-list counters, embedding HashMap<K, usize> -/

/-- Embeds `map.entry(k).and_modify(|e| *e += v).or_insert(v)`: add `v` to the
entry at key `k`, inserting `v` if the key is absent. -/
def bump {α : Type} [DecidableEq α] : List (α × Nat) → α → Nat → List (α × Nat)
  | [], k, v => [(k, v)]
  | (k', v') :: rest, k, v =>
    if k = k' then (k', v' + v) :: rest else (k', v') :: bump rest k v

/-- Embeds `map.entry(k).and_modify(|e| *e += v)` with no `or_insert`: add `v`
to the entry at key `k` only when the key is already present. -/
def andModifyAdd {α : Type} [DecidableEq α] : List (α × Nat) → α → Nat → List (α × Nat)
  | [], _, _ => []
  | (k', v') :: rest, k, v =>
    if k = k' then (k', v' + v) :: rest else (k', v') :: andModifyAdd rest k v

/-- Embeds `map.get(&k).copied()`, with default 0 used to read counters. -/
def lookupD {α : Type} [DecidableEq α] : List (α × Nat) → α → Nat
  | [], _ => 0
  | (k', v') :: rest, k => if k = k' then v' else lookupD rest k

/-- Sum of all stored counts, embedding `map.values().sum()`. -/
def sumValues {α : Type} (m : List (α × Nat)) : Nat := (m.map Prod.snd).sum

theorem sumValues_nil {α : Type} : sumValues ([] : List (α × Nat)) = 0 := rfl

theorem sumValues_bump {α : Type} [DecidableEq α] (m : List (α × Nat)) (k : α) (v : Nat) :
    sumValues (bump m k v) = sumValues m + v := by
  induction m with
  | nil => simp [bump, sumValues]
  | cons e rest ih =>
    obtain ⟨k', v'⟩ := e
    by_cases h : k = k'
    · simp [bump, h, sumValues]
      omega
    · simp [bump, h, sumValues] at ih ⊢
      omega

theorem lookupD_bump {α : Type} [DecidableEq α] (m : List (α × Nat)) (k k' : α) (v : Nat) :
    lookupD (bump m k v) k' = lookupD m k' + if k' = k then v else 0 := by
  induction m with
  | nil =>
    by_cases h : k' = k <;> simp [bump, lookupD, h]
  | cons e rest ih =>
    obtain ⟨a, b⟩ := e
    by_cases hk : k = a
    · subst hk
      by_cases h' : k' = k
      · simp [bump, lookupD, h']
      · simp [bump, lookupD, h']
    · by_cases h' : k' = a
      · subst h'
        simp [bump, hk, lookupD, ih]
        intro h
        exact absurd h.symm hk
      · simp [bump, hk, lookupD, h', ih]

/-! ### Day 14: polymer pair insertion -/

/-- Rule table `HashMap<(char, char), char>` read only through `get`,
embedded as a partial function from ordered pairs to the inserted symbol. -/
def InsertionRules : Type := Char × Char → Option Char

/-- Adjacent ordered pairs of a symbol list, embedding
`input.chars().tuple_windows()`. -/
def windows : List Char → List (Char × Char)
  | a :: b :: rest => (a, b) :: windows (b :: rest)
  | _ => []

theorem windows_cons_length (l : List Char) :
    ∀ a : Char, (windows (a :: l)).length = l.length := by
  induction l with
  | nil => intro a; rfl
  | cons b r ih => intro a; simp [windows, ih b]

/-- Embeds `NaivePairInserter::count_elements`: per-symbol occurrence counts
of a materialized symbol sequence. -/
def countElements (s : List Char) : List (Char × Nat) :=
  s.foldl (fun m c => bump m c 1) []

/-- Embeds `NaivePairInserter::pair_insert_center`: rule lookup for one pair. -/
def pairInsertCenter (rules : InsertionRules) (input : Char × Char) : Option Char :=
  rules input

/-- Rewrites the window list: for each adjacent pair push the left symbol and
the inserted center, failing (Rust `Err`) on the first pair with no rule. -/
def pairInsertGo (rules : InsertionRules) : List (Char × Char) → Option (List Char)
  | [] => some []
  | w :: rest =>
    match pairInsertCenter rules w with
    | none => none
    | some center => (pairInsertGo rules rest).map (fun r => w.1 :: center :: r)

/-- Embeds `NaivePairInserter::pair_insert`: one naive string-rewrite step.
The last input symbol is appended at the end, as it never occurs as a left
component of a window. -/
def pairInsert (rules : InsertionRules) (input : List Char) : Option (List Char) :=
  (pairInsertGo rules (windows input)).map (fun r => r ++ input.getLast?.toList)

/-- Embeds `StatefulPairInserter`: rule table, pair-count state, and the
retained first symbol of the original template. -/
structure StatefulPairInserter where
  rules : InsertionRules
  state : List ((Char × Char) × Nat)
  first : Char

/-- Embeds `StatefulPairInserter::new`: none exactly on the empty template,
otherwise the pair-count state of the template windows plus its first symbol. -/
def StatefulPairInserter.new (rules : InsertionRules) (template : List Char) :
    Option StatefulPairInserter :=
  template.head?.map (fun first =>
    { rules := rules
      state := (windows template).foldl (fun m t => bump m t 1) []
      first := first })

/-- Embeds `StatefulPairInserter::count_elements`: attribute each pair count
to the second symbol of the pair, then add 1 for the retained first symbol via
`and_modify` alone (no `or_insert`), exactly as the source does. -/
def StatefulPairInserter.countElements (p : StatefulPairInserter) : List (Char × Nat) :=
  andModifyAdd (p.state.foldl (fun m e => bump m e.1.2 e.2) []) p.first 1

/-- Outcome of a fallible, panicking Rust method returning `AocResult`:
either a panic (unwrap on a missing value), a typed error value, or success. -/
inductive StepResult (α : Type) where
  | panicked : StepResult α
  | err : String → StepResult α
  | ok : α → StepResult α
deriving DecidableEq

/-- Loop body of `StatefulPairInserter::step`: fold the old entries into a
fresh map, adding the two derived pairs for each entry; the rule lookup is
`unwrap`-ed in the source, so a missing rule is a panic, not a typed error. -/
def stepGo (rules : InsertionRules) :
    List ((Char × Char) × Nat) → List ((Char × Char) × Nat) →
    StepResult (List ((Char × Char) × Nat))
  | [], new => .ok new
  | (current, count) :: rest, new =>
    match rules current with
    | none => .panicked
    | some center =>
        stepGo rules rest
          (bump (bump new (current.1, center) count) (center, current.2) count)

/-- Embeds `StatefulPairInserter::step`: build the new pair-count map and
swap it in on success; on a missing rule the source panics before the swap. -/
def StatefulPairInserter.step (p : StatefulPairInserter) : StepResult StatefulPairInserter :=
  match stepGo p.rules p.state [] with
  | .ok new => .ok { p with state := new }
  | .panicked => .panicked
  | .err e => .err e

theorem sumValues_foldl_bump_one {α : Type} [DecidableEq α] (l : List α) :
    ∀ acc : List (α × Nat),
      sumValues (l.foldl (fun m t => bump m t 1) acc) = sumValues acc + l.length := by
  induction l with
  | nil => intro acc; simp
  | cons a rest ih =>
    intro acc
    simp only [List.foldl_cons, ih (bump acc a 1), sumValues_bump, List.length_cons]
    omega

theorem lookupD_foldl_bump_one {α : Type} [DecidableEq α] (l : List α) :
    ∀ (acc : List (α × Nat)) (k : α),
      lookupD (l.foldl (fun m t => bump m t 1) acc) k =
        lookupD acc k + (l.filter (fun x => x = k)).length := by
  induction l with
  | nil => intro acc k; simp
  | cons a rest ih =>
    intro acc k
    simp only [List.foldl_cons, ih (bump acc a 1) k, lookupD_bump, List.filter_cons]
    by_cases h : a = k
    · subst h; simp; omega
    · have h' : ¬(k = a) := fun hh => h hh.symm
      simp [h, h']

theorem stepGo_ok_of_all_rules (rules : InsertionRules) (l : List ((Char × Char) × Nat)) :
    ∀ acc, (∀ e ∈ l, (rules e.1).isSome) → ∃ r, stepGo rules l acc = .ok r := by
  induction l with
  | nil => intro acc _; exact ⟨acc, rfl⟩
  | cons e rest ih =>
    intro acc h
    obtain ⟨cur, count⟩ := e
    have hcur : (rules cur).isSome := h (cur, count) (by simp)
    obtain ⟨center, hc⟩ := Option.isSome_iff_exists.mp hcur
    have hrest : ∀ e ∈ rest, (rules e.1).isSome := fun e he => h e (by simp [he])
    obtain ⟨r, hr⟩ := ih (bump (bump acc (cur.1, center) count) (center, cur.2) count) hrest
    exact ⟨r, by simp [stepGo, hc, hr]⟩

theorem stepGo_panicked_of_missing (rules : InsertionRules)
    (l : List ((Char × Char) × Nat)) :
    ∀ acc, (∃ e ∈ l, rules e.1 = none) → stepGo rules l acc = .panicked := by
  induction l with
  | nil => intro acc h; simp at h
  | cons e rest ih =>
    intro acc h
    obtain ⟨cur, count⟩ := e
    obtain ⟨f, hf, hnone⟩ := h
    rcases List.mem_cons.mp hf with hhead | htail
    · subst hhead
      simp only at hnone
      simp [stepGo, hnone]
    · cases hc : rules cur with
      | none => simp [stepGo, hc]
      | some center =>
        simp only [stepGo, hc]
        exact ih _ ⟨f, htail, hnone⟩

theorem stepGo_sum (rules : InsertionRules) (l : List ((Char × Char) × Nat)) :
    ∀ acc r, stepGo rules l acc = .ok r → sumValues r = sumValues acc + 2 * sumValues l := by
  induction l with
  | nil =>
    intro acc r h
    simp only [stepGo] at h
    cases h
    simp [sumValues]
  | cons e rest ih =>
    intro acc r h
    obtain ⟨cur, count⟩ := e
    cases hc : rules cur with
    | none => simp [stepGo, hc] at h
    | some center =>
      simp only [stepGo, hc] at h
      have := ih _ r h
      simp only [sumValues_bump] at this
      simp only [sumValues, List.map_cons, List.sum_cons] at this ⊢
      omega

/-- Claim C10: `StatefulPairInserter::new` returns none exactly on the empty
template; on a non-empty template it retains the first template symbol and its
state maps each ordered pair of adjacent symbols to the number of occurrences
of that pair among the template windows (stated as the length of the filtered
window list). -/
theorem new_none_iff_empty_and_state_counts (rules : InsertionRules) (t : List Char) :
    (StatefulPairInserter.new rules t = none ↔ t = []) ∧
    (∀ p, StatefulPairInserter.new rules t = some p →
      t.head? = some p.first ∧
      ∀ pr : Char × Char,
        lookupD p.state pr = ((windows t).filter (fun w => w = pr)).length) := by
  constructor
  · cases t with
    | nil => simp [StatefulPairInserter.new]
    | cons a l => simp [StatefulPairInserter.new]
  · intro p hp
    cases t with
    | nil => simp [StatefulPairInserter.new] at hp
    | cons a l =>
      simp only [StatefulPairInserter.new, List.head?_cons, Option.map_some',
        Option.some_inj] at hp
      subst hp
      refine ⟨rfl, fun pr => ?_⟩
      simp [lookupD_foldl_bump_one, lookupD]

def c10rules : InsertionRules := fun _ => none

def c10p : StatefulPairInserter :=
  { rules := c10rules, state := [(('A', 'B'), 1), (('B', 'A'), 1)], first := 'A' }

theorem new_none_iff_empty_and_state_counts_witness :
    (StatefulPairInserter.new c10rules ([] : List Char) = none ↔ ([] : List Char) = []) ∧
    lookupD c10p.state ('A', 'B') =
      ((windows ['A', 'B', 'A']).filter (fun w => w = ('A', 'B'))).length :=
  ⟨(new_none_iff_empty_and_state_counts c10rules []).1,
   ((new_none_iff_empty_and_state_counts c10rules ['A', 'B', 'A']).2 c10p rfl).2 ('A', 'B')⟩

/-- Claim C8: a successful `step()` replaces every pair by exactly its two
derived pairs, so the total of all pair counts doubles; and the state built by
`new` from a length-N template has pair-count total N-1. -/
theorem step_doubles_pair_total_and_new_total :
    (∀ p q : StatefulPairInserter, p.step = .ok q →
      sumValues q.state = 2 * sumValues p.state) ∧
    (∀ (rules : InsertionRules) (t : List Char) (p : StatefulPairInserter),
      StatefulPairInserter.new rules t = some p → sumValues p.state + 1 = t.length) := by
  constructor
  · intro p q h
    unfold StatefulPairInserter.step at h
    cases hg : stepGo p.rules p.state [] with
    | ok new =>
      rw [hg] at h
      cases h
      have := stepGo_sum p.rules p.state [] new hg
      simpa [sumValues] using this
    | panicked => rw [hg] at h; cases h
    | err e => rw [hg] at h; cases h
  · intro rules t p hp
    cases t with
    | nil => simp [StatefulPairInserter.new] at hp
    | cons a l =>
      simp only [StatefulPairInserter.new, List.head?_cons, Option.map_some',
        Option.some_inj] at hp
      subst hp
      simp only [sumValues_foldl_bump_one, sumValues_nil, List.length_cons]
      simp [windows_cons_length]

def c8p : StatefulPairInserter :=
  { rules := fun _ => some 'C', state := [(('A', 'B'), 2)], first := 'A' }

def c8q : StatefulPairInserter :=
  { rules := fun _ => some 'C', state := [(('A', 'C'), 2), (('C', 'B'), 2)], first := 'A' }

theorem step_doubles_pair_total_and_new_total_witness :
    sumValues c8q.state = 2 * sumValues c8p.state ∧
    sumValues c10p.state + 1 = (['A', 'B', 'A'] : List Char).length :=
  ⟨step_doubles_pair_total_and_new_total.1 c8p c8q rfl,
   step_doubles_pair_total_and_new_total.2 c10rules ['A', 'B', 'A'] c10p rfl⟩

def c4missing : StatefulPairInserter :=
  { rules := fun _ => none, state := [(('A', 'B'), 1)], first := 'A' }

/-- Counterexample to claim C4 as stated: with a pair present in the state and
absent from the rule table, `step()` panics (the source unwraps the rule
lookup); it does not surface a typed error value to the caller. -/
theorem step_missing_rule_counterexample :
    c4missing.step = StepResult.panicked := rfl

/-- Claim C4, amended: on a state containing a pair with no rule, `step()`
panics (the rule lookup is unwrapped) instead of returning a typed error; the
panic happens while building the fresh map, before the state swap, so the
prior pair-count state is not modified (the embedding returns no new inserter
on a panic); `step()` succeeds whenever every pair in the state has a rule. -/
theorem step_panics_on_missing_rule (p : StatefulPairInserter) :
    ((∀ e ∈ p.state, (p.rules e.1).isSome) →
      ∃ q, p.step = .ok q ∧ q.rules = p.rules ∧ q.first = p.first) ∧
    ((∃ e ∈ p.state, p.rules e.1 = none) → p.step = .panicked) := by
  constructor
  · intro h
    obtain ⟨r, hr⟩ := stepGo_ok_of_all_rules p.rules p.state [] h
    exact ⟨{ p with state := r }, by simp [StatefulPairInserter.step, hr], rfl, rfl⟩
  · intro h
    have := stepGo_panicked_of_missing p.rules p.state [] h
    simp [StatefulPairInserter.step, this]

def c4other : StatefulPairInserter :=
  { rules := fun _ => none, state := [(('X', 'Y'), 3)], first := 'X' }

theorem step_panics_on_missing_rule_witness :
    c4other.step = StepResult.panicked :=
  (step_panics_on_missing_rule c4other).2 ⟨(('X', 'Y'), 3), by simp [c4other], rfl⟩

def c1rules : InsertionRules := fun p => if p = ('A', 'B') then some 'C' else none

def c1p : StatefulPairInserter :=
  { rules := c1rules, state := [(('A', 'B'), 1)], first := 'A' }

def c1q : StatefulPairInserter :=
  { rules := c1rules, state := [(('A', 'C'), 1), (('C', 'B'), 1)], first := 'A' }

/-- Claim C1, evaluated at the failing input: with rules mapping only AB to C
and template AB, one naive rewrite yields ACB with symbol counts A:1, C:1,
B:1, while the frequency-based propagator after one step reports C:1, B:1 and
no count at all for the first symbol A — `count_elements` adds the first
symbol with `and_modify` alone, which is a no-op when the first symbol never
occurs as the second component of a pair. -/
theorem frequency_naive_disagree_on_first_symbol :
    pairInsert c1rules ['A', 'B'] = some ['A', 'C', 'B'] ∧
    lookupD (countElements ['A', 'C', 'B']) 'A' = 1 ∧
    StatefulPairInserter.new c1rules ['A', 'B'] = some c1p ∧
    c1p.step = StepResult.ok c1q ∧
    lookupD c1q.countElements 'A' = 0 ∧
    lookupD c1q.countElements 'B' = 1 ∧
    lookupD c1q.countElements 'C' = 1 :=
  ⟨rfl, rfl, rfl, rfl, rfl, rfl, rfl⟩

/-! ### Day 6: bucketed lanternfish population counter -/

/-- Embeds `GameOfLanternfish`: a ring of 7 day-buckets indexed by a rotating
zero-day pointer, plus the 7-day, 8-day and newborn staging counts.  The
source field name `eigth_day_fishes` is kept as written. -/
structure GameOfLanternfish where
  zeroDayBracket : Nat
  fishes : List Nat
  sevenDayFishes : Nat
  eigthDayFishes : Nat
  newbornFishes : Nat

/-- Embeds `GameOfLanternfish::from_numbers`: start from seven empty buckets
and add one fish to bucket `n` per input timer `n`.  The source indexes the
fixed array directly, so it panics on a timer of 7 or more; theorems about
this embedding therefore carry the hypothesis that all timers are below 7. -/
def GameOfLanternfish.fromNumbers (numbers : List Nat) : GameOfLanternfish :=
  { zeroDayBracket := 0
    fishes := numbers.foldl (fun f n => f.set n (f.getD n 0 + 1)) (List.replicate 7 0)
    sevenDayFishes := 0
    eigthDayFishes := 0
    newbornFishes := 0 }

/-- Embeds `GameOfLanternfish::new_parent_day_index`. -/
def GameOfLanternfish.newParentDayIndex (g : GameOfLanternfish) : Nat :=
  (g.zeroDayBracket + 7) % 7

/-- Embeds `GameOfLanternfish::advance_one_day`: fold the 7-day staging count
into the bucket at the rotated parent index, shift the staging pipeline, then
advance the rotating pointer and read the fresh newborn count off the bucket
the pointer now designates. -/
def GameOfLanternfish.advanceOneDay (g : GameOfLanternfish) : GameOfLanternfish :=
  let i := g.newParentDayIndex
  let fishes1 := g.fishes.set i (g.fishes.getD i 0 + g.sevenDayFishes)
  let zero1 := (g.zeroDayBracket + 1) % 7
  { zeroDayBracket := zero1
    fishes := fishes1
    sevenDayFishes := g.eigthDayFishes
    eigthDayFishes := g.newbornFishes
    newbornFishes := fishes1.getD zero1 0 }

/-- Embeds `GameOfLanternfish::count`: the 7-day staging count plus the 8-day
staging count plus the sum of the seven buckets; the newborn staging count is
not included. -/
def GameOfLanternfish.count (g : GameOfLanternfish) : Nat :=
  g.sevenDayFishes + g.eigthDayFishes + g.fishes.sum

set_option maxRecDepth 40000 in
/-- Claim C2: from the example timers 3,4,3,1,2 the counter reports 26 fish
after 18 days, 5934 after 80 days, and 26984457539 after 256 days. -/
theorem lanternfish_example_counts :
    (GameOfLanternfish.advanceOneDay^[18]
      (GameOfLanternfish.fromNumbers [3, 4, 3, 1, 2])).count = 26 ∧
    (GameOfLanternfish.advanceOneDay^[80]
      (GameOfLanternfish.fromNumbers [3, 4, 3, 1, 2])).count = 5934 ∧
    (GameOfLanternfish.advanceOneDay^[256]
      (GameOfLanternfish.fromNumbers [3, 4, 3, 1, 2])).count = 26984457539 := by
  refine ⟨?_, ?_, ?_⟩ <;> decide

def c5state : GameOfLanternfish :=
  GameOfLanternfish.advanceOneDay (GameOfLanternfish.fromNumbers [1])

/-- Counterexample to claim C5 as stated: one day after starting from the
single timer 1, the newborn staging slot holds 1 (it mirrors the bucket at the
rotating zero-day index), so the sum of all buckets plus all three staging
slots is 2, while `count()` returns the true population 1 — `count()` does not
include the newborn slot. -/
theorem count_excludes_newborn_counterexample :
    c5state.count = 1 ∧
    c5state.fishes.sum + c5state.sevenDayFishes + c5state.eigthDayFishes +
      c5state.newbornFishes = 2 := by
  refine ⟨?_, ?_⟩ <;> decide

/-- Claim C5, amended: for every state reachable from `from_numbers` (with
all timers below 7, as the source panics otherwise), `count()` returns the sum
of the seven buckets plus the 7-day and 8-day staging slots only; the newborn
staging slot is excluded because after every advance it duplicates the bucket
at the rotating zero-day index, whose fish are already counted. -/
theorem count_is_buckets_plus_staging (numbers : List Nat) (k : Nat)
    (_hn : ∀ n ∈ numbers, n < 7) :
    (GameOfLanternfish.advanceOneDay^[k]
        (GameOfLanternfish.fromNumbers numbers)).count =
      (GameOfLanternfish.advanceOneDay^[k]
        (GameOfLanternfish.fromNumbers numbers)).fishes.sum +
      (GameOfLanternfish.advanceOneDay^[k]
        (GameOfLanternfish.fromNumbers numbers)).sevenDayFishes +
      (GameOfLanternfish.advanceOneDay^[k]
        (GameOfLanternfish.fromNumbers numbers)).eigthDayFishes ∧
    (1 ≤ k →
      (GameOfLanternfish.advanceOneDay^[k]
          (GameOfLanternfish.fromNumbers numbers)).newbornFishes =
        (GameOfLanternfish.advanceOneDay^[k]
            (GameOfLanternfish.fromNumbers numbers)).fishes.getD
          (GameOfLanternfish.advanceOneDay^[k]
            (GameOfLanternfish.fromNumbers numbers)).zeroDayBracket 0) := by
  constructor
  · simp [GameOfLanternfish.count]
    omega
  · intro hk
    obtain ⟨j, rfl⟩ : ∃ j, k = j + 1 := ⟨k - 1, by omega⟩
    rw [Function.iterate_succ_apply']
    rfl

theorem count_is_buckets_plus_staging_witness :
    (GameOfLanternfish.advanceOneDay^[1]
        (GameOfLanternfish.fromNumbers [3, 4, 3, 1, 2])).count =
      (GameOfLanternfish.advanceOneDay^[1]
        (GameOfLanternfish.fromNumbers [3, 4, 3, 1, 2])).fishes.sum +
      (GameOfLanternfish.advanceOneDay^[1]
        (GameOfLanternfish.fromNumbers [3, 4, 3, 1, 2])).sevenDayFishes +
      (GameOfLanternfish.advanceOneDay^[1]
        (GameOfLanternfish.fromNumbers [3, 4, 3, 1, 2])).eigthDayFishes :=
  (count_is_buckets_plus_staging [3, 4, 3, 1, 2] 1 (by decide)).1

/-! ### Helpers: the generic 2-D grid -/

/-- Embeds `Grid<T>`: a dense row-major store with a column count. -/
structure Grid (α : Type) where
  numColumns : Nat
  data : List α

/-- Embeds `Grid::idx`: the single flat-index formula `num_columns * y + x`. -/
def Grid.idx (g : Grid α) (x y : Nat) : Nat := g.numColumns * y + x

/-- Embeds `Grid::column_count`. -/
def Grid.columnCount (g : Grid α) : Nat := g.numColumns

/-- Embeds `Grid::row_count`: integer division of the data length by the
column count (total in this embedding; the source would panic on a
zero-column grid, but its only caller short-circuits before reaching it). -/
def Grid.rowCount (g : Grid α) : Nat := g.data.length / g.numColumns

/-- Embeds `Grid::get`: none when `x` reaches the column count or `y` the row
count, otherwise the value at the flat index (the source wraps it in a
`Point` record carrying back x, y and the value; this embedding returns the
stored value). -/
def Grid.get (g : Grid α) (x y : Nat) : Option α :=
  if g.columnCount ≤ x ∨ g.rowCount ≤ y then none
  else g.data[g.idx x y]?

/-- Embeds `Grid::set`: look up the flat index mutably and, when it is in
range of the backing store, swap in the new value and return the old one.
No comparison of `x` against the column count is performed. -/
def Grid.set (g : Grid α) (x y : Nat) (v : α) : Grid α × Option α :=
  match g.data[g.idx x y]? with
  | none => (g, none)
  | some old => ({ g with data := g.data.set (g.idx x y) v }, some old)

/-- Outcome of `Grid::from_slice`: a panic (remainder by a zero column
count), the grid shape error, or a constructed grid. -/
inductive FromSliceResult (α : Type) where
  | panicked : FromSliceResult α
  | shapeError : FromSliceResult α
  | ok : Grid α → FromSliceResult α

/-- Embeds `Grid::from_slice`: the source first evaluates
`data.len() % num_columns`, which panics when `num_columns` is zero; with a
nonzero column count a nonzero remainder is the shape error, and otherwise
the grid owns a copy of the slice. -/
def Grid.fromSlice (data : List α) (numColumns : Nat) : FromSliceResult α :=
  if numColumns = 0 then .panicked
  else if data.length % numColumns ≠ 0 then .shapeError
  else .ok { numColumns := numColumns, data := data }

/-- Shape invariant of every constructible grid: the data length is an exact
multiple of the column count (with the Nat convention `n % 0 = n`, a
zero-column grid must have empty data). -/
def Grid.Wf (g : Grid α) : Prop := g.data.length % g.numColumns = 0

instance (g : Grid α) : Decidable g.Wf :=
  inferInstanceAs (Decidable (g.data.length % g.numColumns = 0))

theorem Grid.length_eq_of_wf {α : Type} (g : Grid α) (hw : g.Wf) :
    g.data.length = g.numColumns * g.rowCount := by
  have := Nat.div_add_mod g.data.length g.numColumns
  unfold Grid.Wf at hw
  unfold Grid.rowCount
  omega

theorem Grid.idx_lt_length {α : Type} (g : Grid α) (x y : Nat) (hw : g.Wf)
    (hx : x < g.columnCount) (hy : y < g.rowCount) :
    g.idx x y < g.data.length := by
  have hlen := Grid.length_eq_of_wf g hw
  have h1 : g.idx x y < g.numColumns * (y + 1) := by
    unfold Grid.idx
    unfold Grid.columnCount at hx
    have : g.numColumns * (y + 1) = g.numColumns * y + g.numColumns :=
      Nat.mul_succ g.numColumns y
    omega
  have h2 : g.numColumns * (y + 1) ≤ g.numColumns * g.rowCount :=
    Nat.mul_le_mul_left g.numColumns (by omega)
  omega

/-- Claim C6: on every well-formed grid, `get` returns none exactly when the
column or row bound is violated and otherwise returns the value stored at the
flat index; the embedding is a total function, mirroring that the source
method cannot panic (its bound test short-circuits before the row-count
division). -/
theorem get_in_bounds_total (g : Grid α) (x y : Nat) (hw : g.Wf) :
    ((g.columnCount ≤ x ∨ g.rowCount ≤ y) → g.get x y = none) ∧
    (x < g.columnCount → y < g.rowCount →
      g.get x y = g.data[g.idx x y]? ∧ (g.get x y).isSome) := by
  constructor
  · intro h
    simp [Grid.get, h]
  · intro hx hy
    have hcond : ¬(g.columnCount ≤ x ∨ g.rowCount ≤ y) := by omega
    have hidx := Grid.idx_lt_length g x y hw hx hy
    have hval : g.get x y = g.data[g.idx x y]? := by
      simp [Grid.get, hcond]
    refine ⟨hval, ?_⟩
    rw [hval, List.getElem?_eq_getElem hidx]
    rfl

def c6grid : Grid Nat := { numColumns := 2, data := [1, 2, 3, 4] }

theorem get_in_bounds_total_witness :
    c6grid.get 1 1 = c6grid.data[c6grid.idx 1 1]? ∧ (c6grid.get 1 1).isSome :=
  (get_in_bounds_total c6grid 1 1 (by decide)).2 (by decide) (by decide)

def c3grid : Grid Nat := { numColumns := 2, data := [10, 20, 30, 40] }

/-- Counterexample to claim C3 as stated: on a 2-column, 2-row grid,
`set(2, 0, 99)` has `x` equal to the column count, so the claim requires none
and no change; the source checks only the flat index `2*0+2 = 2`, which is in
range, so it overwrites the cell at coordinates (0, 1) and returns its old
value. -/
theorem set_out_of_bounds_counterexample :
    c3grid.columnCount ≤ 2 ∧
    (c3grid.set 2 0 99).2 = some 30 ∧
    (c3grid.set 2 0 99).1.data = [10, 20, 99, 40] :=
  ⟨by decide, rfl, rfl⟩

/-- Claim C3, amended: `set(x, y, value)` tests only the flat index
`num_columns * y + x` against the data length: when it is out of range it
returns none and changes nothing, and otherwise it swaps the value at that
flat index and returns the old one — even when `x` is at or past the column
count, in which case the write lands on a cell of a later row.  On a
well-formed grid with both coordinates in bounds this gives the intended
behaviour: the old value is exactly `get(x, y)` and a subsequent `get(x, y)`
sees the new value. -/
theorem set_checks_flat_index_only (g : Grid α) (x y : Nat) (v : α) :
    (g.data.length ≤ g.idx x y → Grid.set g x y v = (g, none)) ∧
    (g.idx x y < g.data.length →
      (Grid.set g x y v).1.data = g.data.set (g.idx x y) v ∧
      (Grid.set g x y v).2 = g.data[g.idx x y]?) ∧
    (g.Wf → x < g.columnCount → y < g.rowCount →
      (Grid.set g x y v).2 = g.get x y ∧ (Grid.set g x y v).1.get x y = some v) := by
  refine ⟨?_, ?_, ?_⟩
  · intro h
    have hnone : g.data[g.idx x y]? = none := List.getElem?_eq_none h
    simp [Grid.set, hnone]
  · intro h
    have hsome := List.getElem?_eq_getElem h
    simp [Grid.set, hsome]
  · intro hw hx hy
    have hcond : ¬(g.columnCount ≤ x ∨ g.rowCount ≤ y) := by omega
    have hidx := Grid.idx_lt_length g x y hw hx hy
    have hsome := List.getElem?_eq_getElem hidx
    constructor
    · simp [Grid.set, hsome, Grid.get, hcond]
    · have hrow : ({ g with data := g.data.set (g.idx x y) v } : Grid α).rowCount
          = g.rowCount := by
        simp [Grid.rowCount]
      simp only [Grid.set, hsome]
      simp only [Grid.get, Grid.columnCount, hrow]
      simp only [Grid.columnCount] at hcond
      rw [if_neg hcond]
      simpa using List.getElem?_set_self (l := g.data) (a := v) (by simpa using hidx)

theorem set_checks_flat_index_only_witness :
    (c3grid.set 1 1 5).2 = c3grid.get 1 1 ∧ (c3grid.set 1 1 5).1.get 1 1 = some 5 :=
  (set_checks_flat_index_only c3grid 1 1 5).2.2 (by decide) (by decide) (by decide)

/-- Counterexample to claim C7 as stated: with a zero column count the source
evaluates `data.len() % 0`, which panics; the empty slice with zero columns
has a length that is a multiple of the column count, yet construction neither
succeeds nor reports a shape error. -/
theorem from_slice_zero_columns_counterexample :
    Grid.fromSlice ([] : List Nat) 0 = FromSliceResult.panicked ∧ (0 : Nat) ∣ 0 :=
  ⟨rfl, dvd_refl 0⟩

/-- Claim C7, amended: for a positive column count, `from_slice` fails with
the shape error exactly when the data length is not a multiple of the column
count; with a zero column count it panics on the remainder computation
instead; and every successfully constructed grid stores the given data with
`data.length == columns * rows` and `data.length % columns == 0`. -/
theorem from_slice_shape (data : List α) (n : Nat) :
    (Grid.fromSlice data n = .panicked ↔ n = 0) ∧
    (1 ≤ n → (Grid.fromSlice data n = .shapeError ↔ data.length % n ≠ 0)) ∧
    (∀ g, Grid.fromSlice data n = .ok g →
      g.numColumns = n ∧ g.data = data ∧
      g.data.length = g.columnCount * g.rowCount ∧ g.data.length % g.columnCount = 0) := by
  refine ⟨?_, ?_, ?_⟩
  · by_cases h0 : n = 0
    · simp [Grid.fromSlice, h0]
    · by_cases hm : data.length % n ≠ 0 <;> simp [Grid.fromSlice, h0, hm]
  · intro hn
    have h0 : ¬(n = 0) := by omega
    by_cases hm : data.length % n ≠ 0 <;> simp [Grid.fromSlice, h0, hm]
  · intro g hg
    by_cases h0 : n = 0
    · simp [Grid.fromSlice, h0] at hg
    · by_cases hm : data.length % n ≠ 0
      · simp [Grid.fromSlice, h0, hm] at hg
      · simp only [Grid.fromSlice, h0, hm, if_false, ite_false, ite_true] at hg
        cases hg
        have hw : (⟨n, data⟩ : Grid α).Wf := by
          unfold Grid.Wf
          simpa using hm
        refine ⟨rfl, rfl, Grid.length_eq_of_wf _ hw, by simpa [Grid.Wf] using hw⟩

theorem from_slice_shape_witness :
    Grid.fromSlice ([1, 2, 3] : List Nat) 2 = FromSliceResult.shapeError :=
  ((from_slice_shape [1, 2, 3] 2).2.1 (by decide)).mpr (by decide)

/-! ### Day 11: octopus flash propagation -/

/-- Embeds the `FLASH_THRESHOLD` constant of day 11. -/
def flashThreshold : Nat := 9

/-- Energy read through `Grid::get` with default 0; the simulation only reads
in-bounds cells (the source `expect`s on them), where the default is unused. -/
def cellVal (g : Grid Nat) (x y : Nat) : Nat := (g.get x y).getD 0

/-- Modelled from the spec: `Grid::get_mut` is absent from the provided
helpers source; spec section 4.1 gives it the same bounds contract as `get`
and it allows in-place mutation of the addressed cell.  This function writes
through it: in bounds the cell at the flat index is replaced, out of bounds
there is no cell and the grid is unchanged. -/
def setCell (g : Grid Nat) (x y v : Nat) : Grid Nat :=
  if x < g.columnCount ∧ y < g.rowCount then
    { g with data := g.data.set (g.idx x y) v }
  else g

/-- Modelled from the spec: `Grid::surrounding_indexes` is absent from the
provided helpers source; spec sections 4.1 and 4.5 require the in-bounds
8-neighbour coordinates (orthogonal and diagonal, no wraparound). -/
def surroundingIndexes (g : Grid Nat) (x y : Nat) : List (Nat × Nat) :=
  ([(-1, -1), (0, -1), (1, -1), (-1, 0), (1, 0), (-1, 1), (0, 1), (1, 1)] :
      List (Int × Int)).filterMap (fun d =>
    let nx : Int := (x : Int) + d.1
    let ny : Int := (y : Int) + d.2
    if 0 ≤ nx ∧ 0 ≤ ny ∧ nx < (g.columnCount : Int) ∧ ny < (g.rowCount : Int) then
      some (nx.toNat, ny.toNat)
    else none)

/-- Neighbour update of `Octopusses::flash`: a surrounding octopus gains one
energy only when its energy is positive — cells at 0 have already flashed
this step and are skipped. -/
def incrStep (h : Grid Nat) (r : Nat × Nat) : Grid Nat :=
  if 0 < cellVal h r.1 r.2 then setCell h r.1 r.2 (cellVal h r.1 r.2 + 1) else h

/-- Embeds `Octopusses::flash`: reset the flashed cell to 0, then apply the
guarded increment to every surrounding index. -/
def flash (g : Grid Nat) (x y : Nat) : Grid Nat :=
  (surroundingIndexes g x y).foldl incrStep (setCell g x y 0)

/-- First phase of `Octopusses::step`: every energy level increases by 1. -/
def incrementAll (g : Grid Nat) : Grid Nat := { g with data := g.data.map (· + 1) }

/-- Row-major scan order of the fixed-point loop in `Octopusses::step`:
outer loop over rows, inner loop over columns. -/
def scanOrder (g : Grid Nat) : List (Nat × Nat) :=
  (List.range g.rowCount).flatMap (fun y => (List.range g.columnCount).map (fun x => (x, y)))

/-- One full row-major scan of the fixed-point loop in `Octopusses::step`:
every cell whose current energy exceeds the threshold flashes, and the
flashed positions are accumulated in scan order. -/
def passAux : List (Nat × Nat) → Grid Nat → Grid Nat × List (Nat × Nat)
  | [], g => (g, [])
  | p :: rest, g =>
    if flashThreshold < cellVal g p.1 p.2 then
      let r := passAux rest (flash g p.1 p.2)
      (r.1, p :: r.2)
    else passAux rest g

/-- The fixed-point loop of `Octopusses::step`: while some cell exceeds the
threshold, rescan the whole grid.  The loop is indexed by explicit fuel so
that every finite prefix of the iteration is covered; the flashed positions
of all passes are concatenated. -/
def flashLoop : Nat → Grid Nat → Grid Nat × List (Nat × Nat)
  | 0, g => (g, [])
  | n + 1, g =>
    if g.data.any (fun v => flashThreshold < v) then
      let r := passAux (scanOrder g) g
      let r2 := flashLoop n r.1
      (r2.1, r.2 ++ r2.2)
    else (g, [])

theorem cellVal_oob (g : Grid Nat) (x y : Nat)
    (h : g.columnCount ≤ x ∨ g.rowCount ≤ y) : cellVal g x y = 0 := by
  simp [cellVal, Grid.get, h]

theorem setCell_numColumns (g : Grid Nat) (x y v : Nat) :
    (setCell g x y v).numColumns = g.numColumns := by
  unfold setCell; split <;> rfl

theorem setCell_length (g : Grid Nat) (x y v : Nat) :
    (setCell g x y v).data.length = g.data.length := by
  unfold setCell; split <;> simp

theorem setCell_columnCount (g : Grid Nat) (x y v : Nat) :
    (setCell g x y v).columnCount = g.columnCount := by
  simp [Grid.columnCount, setCell_numColumns]

theorem setCell_rowCount (g : Grid Nat) (x y v : Nat) :
    (setCell g x y v).rowCount = g.rowCount := by
  simp [Grid.rowCount, setCell_numColumns, setCell_length]

theorem Grid.idx_lt_length_of_bounds (g : Grid α) (x y : Nat)
    (hx : x < g.columnCount) (hy : y < g.rowCount) : g.idx x y < g.data.length := by
  have hms : g.numColumns * (y + 1) = g.numColumns * y + g.numColumns := by ring
  have h1 : g.idx x y < g.numColumns * (y + 1) := by
    unfold Grid.idx
    unfold Grid.columnCount at hx
    omega
  have h2 : g.numColumns * (y + 1) ≤ g.numColumns * g.rowCount :=
    Nat.mul_le_mul_left g.numColumns (by omega)
  have h3 : g.numColumns * g.rowCount ≤ g.data.length := by
    unfold Grid.rowCount
    have hd := Nat.div_mul_le_self g.data.length g.numColumns
    have hcm : g.numColumns * (g.data.length / g.numColumns) =
        g.data.length / g.numColumns * g.numColumns := Nat.mul_comm _ _
    omega
  omega

theorem cellVal_setCell_self (g : Grid Nat) (x y v : Nat)
    (hx : x < g.columnCount) (hy : y < g.rowCount) :
    cellVal (setCell g x y v) x y = v := by
  have hin : x < g.columnCount ∧ y < g.rowCount := ⟨hx, hy⟩
  have hidx := Grid.idx_lt_length_of_bounds g x y hx hy
  unfold cellVal Grid.get
  rw [setCell, if_pos hin]
  have hcond : ¬(({ g with data := g.data.set (g.idx x y) v } : Grid Nat).columnCount ≤ x ∨
      ({ g with data := g.data.set (g.idx x y) v } : Grid Nat).rowCount ≤ y) := by
    simp only [Grid.columnCount, Grid.rowCount, List.length_set]
    unfold Grid.columnCount at hx
    unfold Grid.rowCount at hy
    omega
  rw [if_neg hcond]
  have : (g.data.set (g.idx x y) v)[g.idx x y]? = some v :=
    List.getElem?_set_self (by simpa using hidx)
  simp only [Grid.idx] at this ⊢
  rw [this]
  rfl

theorem Grid.idx_inj (g : Grid Nat) {x y p q : Nat}
    (hx : x < g.columnCount) (hp : p < g.columnCount)
    (hne : ¬(p = x ∧ q = y)) : g.idx p q ≠ g.idx x y := by
  unfold Grid.idx
  unfold Grid.columnCount at hx hp
  intro he
  apply hne
  have hq : q = y := by
    rcases Nat.lt_trichotomy q y with h | h | h
    · exfalso
      have h1 : g.numColumns * (q + 1) ≤ g.numColumns * y :=
        Nat.mul_le_mul_left g.numColumns (by omega)
      have h2 : g.numColumns * (q + 1) = g.numColumns * q + g.numColumns := by ring
      omega
    · exact h
    · exfalso
      have h1 : g.numColumns * (y + 1) ≤ g.numColumns * q :=
        Nat.mul_le_mul_left g.numColumns (by omega)
      have h2 : g.numColumns * (y + 1) = g.numColumns * y + g.numColumns := by ring
      omega
  subst hq
  omega

theorem cellVal_setCell_ne (g : Grid Nat) (x y v p q : Nat)
    (hne : ¬(p = x ∧ q = y)) :
    cellVal (setCell g x y v) p q = cellVal g p q := by
  by_cases hin : x < g.columnCount ∧ y < g.rowCount
  · rw [setCell, if_pos hin]
    by_cases hpq : p < g.columnCount ∧ q < g.rowCount
    · have hidne := Grid.idx_inj g hin.1 hpq.1 hne
      unfold cellVal Grid.get
      have hc1 : ¬(g.columnCount ≤ p ∨ g.rowCount ≤ q) := by omega
      have hc2 : ¬(({ g with data := g.data.set (g.idx x y) v } : Grid Nat).columnCount ≤ p ∨
          ({ g with data := g.data.set (g.idx x y) v } : Grid Nat).rowCount ≤ q) := by
        simp only [Grid.columnCount, Grid.rowCount, List.length_set]
        unfold Grid.columnCount Grid.rowCount at hc1
        omega
      rw [if_neg hc1, if_neg hc2]
      have : (g.data.set (g.idx x y) v)[g.idx p q]? = g.data[g.idx p q]? :=
        List.getElem?_set_ne (fun h => hidne h.symm)
      simp only [Grid.idx] at this ⊢
      rw [this]
    · have h1 : cellVal g p q = 0 := cellVal_oob g p q (by omega)
      have h2 : cellVal ({ g with data := g.data.set (g.idx x y) v } : Grid Nat) p q = 0 := by
        apply cellVal_oob
        simp only [Grid.columnCount, Grid.rowCount, List.length_set]
        unfold Grid.columnCount Grid.rowCount at hpq
        omega
      rw [h1, h2]
  · rw [setCell, if_neg hin]

theorem cellVal_setCell_zero_self (g : Grid Nat) (x y : Nat) :
    cellVal (setCell g x y 0) x y = 0 := by
  by_cases hin : x < g.columnCount ∧ y < g.rowCount
  · exact cellVal_setCell_self g x y 0 hin.1 hin.2
  · rw [setCell, if_neg hin]
    exact cellVal_oob g x y (by omega)

theorem cellVal_foldl_incrStep_zero (l : List (Nat × Nat)) :
    ∀ (h : Grid Nat) (p q : Nat), cellVal h p q = 0 →
      cellVal (l.foldl incrStep h) p q = 0 := by
  induction l with
  | nil => intro h p q h0; simpa using h0
  | cons r rest ih =>
    intro h p q h0
    obtain ⟨a, b⟩ := r
    simp only [List.foldl_cons]
    apply ih
    by_cases hr : p = a ∧ q = b
    · obtain ⟨rfl, rfl⟩ := hr
      rw [incrStep]
      simp only
      rw [if_neg (by omega)]
      exact h0
    · rw [incrStep]
      simp only
      split
      · rw [cellVal_setCell_ne h a b _ p q hr]
        exact h0
      · exact h0

theorem cellVal_flash_self (g : Grid Nat) (x y : Nat) :
    cellVal (flash g x y) x y = 0 := by
  unfold flash
  exact cellVal_foldl_incrStep_zero _ _ x y (cellVal_setCell_zero_self g x y)

theorem cellVal_flash_of_zero (g : Grid Nat) (x y p q : Nat)
    (h0 : cellVal g p q = 0) : cellVal (flash g x y) p q = 0 := by
  by_cases hr : p = x ∧ q = y
  · obtain ⟨rfl, rfl⟩ := hr
    exact cellVal_flash_self g p q
  · unfold flash
    apply cellVal_foldl_incrStep_zero
    rw [cellVal_setCell_ne g x y 0 p q hr]
    exact h0

theorem passAux_zero (l : List (Nat × Nat)) :
    ∀ (g : Grid Nat) (p q : Nat), cellVal g p q = 0 →
      cellVal (passAux l g).1 p q = 0 ∧ (p, q) ∉ (passAux l g).2 := by
  induction l with
  | nil => intro g p q h0; simpa [passAux] using h0
  | cons r rest ih =>
    intro g p q h0
    obtain ⟨a, b⟩ := r
    by_cases hf : flashThreshold < cellVal g a b
    · have hne : ¬((p, q) = (a, b)) := by
        intro he
        rw [Prod.mk.injEq] at he
        obtain ⟨rfl, rfl⟩ := he
        rw [h0] at hf
        exact absurd hf (by decide)
      have h0' : cellVal (flash g a b) p q = 0 := by
        apply cellVal_flash_of_zero
        exact h0
      have := ih (flash g a b) p q h0'
      simp only [passAux, if_pos hf]
      refine ⟨this.1, ?_⟩
      simp only [List.mem_cons]
      rintro (he | hm)
      · exact hne he
      · exact this.2 hm
    · simp only [passAux, if_neg hf]
      exact ih g p q h0

theorem passAux_sublist (l : List (Nat × Nat)) :
    ∀ g : Grid Nat, (passAux l g).2.Sublist l := by
  induction l with
  | nil => intro g; simp [passAux]
  | cons r rest ih =>
    intro g
    by_cases hf : flashThreshold < cellVal g r.1 r.2
    · simp only [passAux, if_pos hf]
      exact (ih (flash g r.1 r.2)).cons₂ r
    · simp only [passAux, if_neg hf]
      exact (ih g).cons r

theorem passAux_flashed_zero (l : List (Nat × Nat)) :
    ∀ (g : Grid Nat) (r : Nat × Nat), r ∈ (passAux l g).2 →
      cellVal (passAux l g).1 r.1 r.2 = 0 := by
  induction l with
  | nil => intro g r hr; simp [passAux] at hr
  | cons p rest ih =>
    intro g r hr
    obtain ⟨a, b⟩ := p
    by_cases hf : flashThreshold < cellVal g a b
    · simp only [passAux, if_pos hf] at hr ⊢
      rcases List.mem_cons.mp hr with he | hm
      · subst he
        exact (passAux_zero rest (flash g a b) a b (cellVal_flash_self g a b)).1
      · exact ih (flash g a b) r hm
    · simp only [passAux, if_neg hf] at hr ⊢
      exact ih g r hr

theorem flashLoop_zero (n : Nat) :
    ∀ (g : Grid Nat) (p q : Nat), cellVal g p q = 0 →
      cellVal (flashLoop n g).1 p q = 0 ∧ (p, q) ∉ (flashLoop n g).2 := by
  induction n with
  | zero => intro g p q h0; simpa [flashLoop] using h0
  | succ n ih =>
    intro g p q h0
    by_cases hc : g.data.any (fun v => flashThreshold < v)
    · simp only [flashLoop, if_pos hc]
      have hp := passAux_zero (scanOrder g) g p q h0
      have hl := ih (passAux (scanOrder g) g).1 p q hp.1
      refine ⟨hl.1, ?_⟩
      simp only [List.mem_append]
      rintro (hm | hm)
      · exact hp.2 hm
      · exact hl.2 hm
    · simp only [flashLoop, if_neg hc]
      exact ⟨h0, by simp⟩

theorem scanOrder_nodup (g : Grid Nat) : (scanOrder g).Nodup := by
  unfold scanOrder
  rw [List.nodup_flatMap]
  constructor
  · intro y _
    exact (List.nodup_range _).map (fun a b h => by
      simpa using congrArg Prod.fst h)
  · have hnd : List.Pairwise (fun a b => a ≠ b) (List.range g.rowCount) :=
      List.nodup_range g.rowCount
    apply hnd.imp
    intro a b hab
    intro r hra hrb
    simp only [List.mem_map, List.mem_range] at hra hrb
    obtain ⟨xa, _, rfl⟩ := hra
    obtain ⟨xb, _, he⟩ := hrb
    rw [Prod.mk.injEq] at he
    exact hab he.2.symm

theorem flashLoop_nodup (n : Nat) : ∀ g : Grid Nat, ((flashLoop n g).2).Nodup := by
  induction n with
  | zero => intro g; simp [flashLoop]
  | succ n ih =>
    intro g
    by_cases hc : g.data.any (fun v => flashThreshold < v)
    · simp only [flashLoop, if_pos hc]
      have hps : ((passAux (scanOrder g) g).2).Nodup :=
        (passAux_sublist (scanOrder g) g).nodup (scanOrder_nodup g)
      refine List.Nodup.append hps (ih _) ?_
      intro r hr
      have hz := passAux_flashed_zero (scanOrder g) g r hr
      have := (flashLoop_zero n (passAux (scanOrder g) g).1 r.1 r.2 hz).2
      simpa using this
    · simp only [flashLoop, if_neg hc]
      exact List.nodup_nil

theorem flashLoop_flashed_zero (n : Nat) :
    ∀ (g : Grid Nat) (r : Nat × Nat), r ∈ (flashLoop n g).2 →
      cellVal (flashLoop n g).1 r.1 r.2 = 0 := by
  induction n with
  | zero => intro g r hr; simp [flashLoop] at hr
  | succ n ih =>
    intro g r hr
    by_cases hc : g.data.any (fun v => flashThreshold < v)
    · simp only [flashLoop, if_pos hc] at hr ⊢
      rcases List.mem_append.mp hr with hm | hm
      · have hz := passAux_flashed_zero (scanOrder g) g r hm
        exact (flashLoop_zero n _ r.1 r.2 hz).1
      · exact ih _ r hm
    · simp only [flashLoop, if_neg hc] at hr
      simp at hr

/-- Claim C9: in every octopus simulation step (increment every cell, then
run the fixed-point rescan loop for any number of passes), each cell flashes
at most once — the list of flashed positions has no duplicates — and every
flashed cell ends the loop pinned at energy 0, because a flash resets it to 0
and the neighbour increment explicitly skips cells at 0, so it can never
cross the threshold again within the step. -/
theorem each_cell_flashes_at_most_once (g : Grid Nat) (n : Nat) :
    ((flashLoop n (incrementAll g)).2).Nodup ∧
    ∀ r ∈ (flashLoop n (incrementAll g)).2,
      cellVal (flashLoop n (incrementAll g)).1 r.1 r.2 = 0 :=
  ⟨flashLoop_nodup n (incrementAll g),
   fun r hr => flashLoop_flashed_zero n (incrementAll g) r hr⟩

def c9grid : Grid Nat := { numColumns := 2, data := [9, 9, 0, 5] }

theorem each_cell_flashes_at_most_once_witness :
    ((flashLoop 2 (incrementAll c9grid)).2).Nodup ∧
    cellVal (flashLoop 2 (incrementAll c9grid)).1 0 0 = 0 :=
  ⟨(each_cell_flashes_at_most_once c9grid 2).1,
   (each_cell_flashes_at_most_once c9grid 2).2 (0, 0) (by decide)⟩

end Aoc21
